import Mathlib

/-!
Verification of the veteran-org-directory entity-resolution pipeline.

The development shallowly embeds the pipeline's core components over a
common cell-value model:

* `src/transformers/normalizer.py` — `normalize_ein`;
* `src/config/schema.py`           — the canonical column list, confidence
  weights and grade tiers;
* `src/loaders/csv_writer.py`      — `calculate_confidence`, `_row_has`,
  `assign_grade`;
* `src/loaders/deduplicator.py`    — `_merge_rows`, `_tier1_exact_ein`,
  `_tier2_fuzzy_name_city`, `_tier3_url_domain`;
* `src/loaders/merger.py`          — `_smart_merge_on_ein`;
* `src/utils/checkpoint.py` and `src/extractors/base_extractor.py` —
  `load_checkpoint` / `BaseExtractor.run`;
* `src/utils/http_client.py`       — `RateLimitedSession.get` with its disk
  cache.

A pandas cell is modelled by `Val` (missing, string, or numeric), a
DataFrame row by a total function from column names to `Val` (a coerced
frame carries every canonical column; reading a column a frame does not
have yields the missing value), and a DataFrame by a list of rows, plus an
explicit column list where the code manipulates columns dynamically
(`_smart_merge_on_ein`).
-/

/-- A pandas cell: `pd.NA`/`NaN`, a string, or a number.  Numbers are
modelled as rationals (the float columns of the schema). -/
inductive Val where
  | na : Val
  | str : String → Val
  | num : ℚ → Val
deriving DecidableEq, Repr

/-- `pd.isna` on a cell. -/
def Val.isNa : Val → Bool
  | .na => true
  | _ => false

/-- A DataFrame row: column name to cell value. -/
abbrev Row := String → Val

/-- Build a row from explicit (column, value) pairs; every other column is
missing.  Convenience for concrete records in witnesses/counterexamples. -/
def mkRow (ps : List (String × Val)) : Row :=
  fun c => match ps.find? (fun p => p.1 == c) with
    | some p => p.2
    | none => .na

/-- Python `str(x)` of a cell, as far as the pipeline observes it (the code
only ever tests the result for blankness or splits it); `pd.NA` stringifies
to the non-blank `"<NA>"`. -/
def pyStr : Val → String
  | .na => "<NA>"
  | .str s => s
  | .num q => toString q

/-- Python `str.strip()`: drop whitespace from both ends.  (Structural
re-implementation of stripping, so concrete rows evaluate in the kernel.) -/
def trimStr (s : String) : String :=
  ⟨((s.data.dropWhile Char.isWhitespace).reverse.dropWhile Char.isWhitespace).reverse⟩

/-- `src/loaders/csv_writer.py` `_row_has` (lines 54-64), and the per-column
test of `calculate_confidence` (line 29): the value is non-null and its
string form is non-blank after stripping. -/
def rowHas (r : Row) (c : String) : Bool :=
  !(r c).isNa && trimStr (pyStr (r c)) ≠ ""

/-! ### `src/transformers/normalizer.py` — `normalize_ein` -/

/-- `re.sub(r"[^0-9]", "", s)`: the digit characters of `s`. -/
def einDigits (s : String) : List Char := s.data.filter Char.isDigit

/-- `normalize_ein` (normalizer.py lines 14-21): `None` for a missing
input; otherwise keep the digits, reject unless exactly nine remain, and
format as `XX-XXXXXXX`. -/
def normalizeEin : Option String → Option String
  | none => none
  | some s =>
    let ds := einDigits s
    if ds.length ≠ 9 then none
    else some (⟨ds.take 2⟩ ++ "-" ++ ⟨ds.drop 2⟩)

/-- The `XX-XXXXXXX` shape: two digits, a hyphen, seven digits. -/
def einShapeOk (l : List Char) : Bool :=
  l.length == 10 && (l.take 2).all Char.isDigit && (l.drop 2).take 1 == ['-']
    && (l.drop 3).all Char.isDigit

/-! ### `src/config/schema.py` — canonical columns, weights, priorities -/

/-- `COLUMN_NAMES` (schema.py lines 6-78): the canonical 45-column order. -/
def COLUMN_NAMES : List String :=
  ["org_name", "org_name_alt", "ein", "org_type",
   "street_address", "street_address_2", "city", "state", "zip_code", "country",
   "phone", "email", "website",
   "ntee_code", "ntee_description", "irs_subsection", "irs_filing_requirement",
   "tax_exempt_status", "ruling_date",
   "mission_statement", "services_offered", "service_categories",
   "eligibility_requirements", "service_area", "year_founded",
   "fiscal_year_end", "total_revenue", "total_expenses", "total_assets",
   "total_liabilities", "net_assets", "annual_revenue_range",
   "num_employees", "num_volunteers", "key_personnel", "board_members",
   "charity_navigator_rating", "charity_navigator_score", "cn_alert_level",
   "va_accredited", "accreditation_details",
   "facebook_url", "twitter_url", "linkedin_url", "instagram_url", "youtube_url",
   "data_sources", "data_freshness_date", "confidence_score", "confidence_grade",
   "confidence_detail", "record_last_updated"]

/-- `SOURCE_PRIORITY` (merger.py lines 18-26). -/
def SOURCE_PRIORITY : List String :=
  ["irs_bmf", "propublica", "charity_nav", "va_facilities", "va_vso", "nodc", "nrd"]

/-- `CONFIDENCE_WEIGHTS` (schema.py lines 136-158), in dict order. -/
def CONFIDENCE_WEIGHTS : List (String × ℚ) :=
  [("org_name", 0.10), ("ein", 0.08), ("street_address", 0.06), ("city", 0.05),
   ("state", 0.05), ("zip_code", 0.04), ("phone", 0.06), ("email", 0.06),
   ("website", 0.06), ("ntee_code", 0.04), ("mission_statement", 0.05),
   ("total_revenue", 0.05), ("total_assets", 0.04), ("num_employees", 0.03),
   ("charity_navigator_rating", 0.04), ("va_accredited", 0.03),
   ("services_offered", 0.04), ("facebook_url", 0.02), ("twitter_url", 0.02),
   ("data_sources", 0.04), ("key_personnel", 0.04)]

/-! ### `src/loaders/csv_writer.py` — confidence score and grade -/

/-- `total_weight = sum(CONFIDENCE_WEIGHTS.values())` (csv_writer.py line 33). -/
def totalWeight : ℚ := (CONFIDENCE_WEIGHTS.map Prod.snd).sum

/-- Rounding to three decimals (`scores.round(3)`, csv_writer.py line 37).
The claims never observe the tie-breaking direction, so the half-up
`round` models the float rounding of the source. -/
def round3 (q : ℚ) : ℚ := (round (1000 * q) : ℚ) / 1000

/-- `calculate_confidence` per row (csv_writer.py lines 23-37): accumulate
the weight of every filled weighted column, normalize by the total weight,
round to three decimals.  The frame is canonical when scored (`write_csv`
coerces it first), so the `col in df.columns` guard is always true. -/
def rowConfidence (r : Row) : ℚ :=
  round3
    ((CONFIDENCE_WEIGHTS.foldl
        (fun acc p => acc + (if rowHas r p.1 then (1 : ℚ) else 0) * p.2) 0)
      / totalWeight)

/-! ### `src/loaders/csv_writer.py` — `assign_grade` -/

/-- The truth value of a Python boolean expression that may hold `pd.NA`:
`pd.NA` propagates through `==` and is not coercible to `bool`
(`bool(pd.NA)` raises `TypeError`). -/
inductive PyBool where
  | t : PyBool
  | f : PyBool
  | na : PyBool
deriving DecidableEq, Repr

/-- `row.get("va_accredited") == "Yes"` (csv_writer.py line 75): comparing
`pd.NA` with a string yields `pd.NA`; any other cell compares by value. -/
def vaAccreditedYes (r : Row) : PyBool :=
  match r "va_accredited" with
  | .na => .na
  | v => if v = .str "Yes" then .t else .f

/-- `has_rating = _row_has(row, "charity_navigator_rating") or (row.get("va_accredited") == "Yes")`:
Python `or` returns its second operand unevaluated-for-truth when the first
is falsy, so the result can be `pd.NA`. -/
def hasRating (r : Row) : PyBool :=
  if rowHas r "charity_navigator_rating" then .t else vaAccreditedYes r

/-- `assign_grade` (csv_writer.py lines 67-88).  The grade-A condition
`has_identity and has_financials and has_contact and has_rating` evaluates
to `has_rating` when the three booleans are true; if that value is `pd.NA`,
the `if` statement applies `bool(pd.NA)`, which raises `TypeError`
(modelled as `Except.error ()`).  All other branches compare genuine
booleans. -/
def assignGrade (r : Row) : Except Unit String :=
  let has_name := rowHas r "org_name"
  let has_ein := rowHas r "ein"
  let has_address := rowHas r "street_address"
      || (rowHas r "city" && rowHas r "state")
  let has_financials := rowHas r "total_revenue"
  let has_ntee := rowHas r "ntee_code"
  let has_contact := rowHas r "phone" || rowHas r "email" || rowHas r "website"
  let has_identity := has_name && has_ein && has_address
  let gradeACond : PyBool :=
    if has_identity && has_financials && has_contact then hasRating r else .f
  match gradeACond with
  | .na => .error ()
  | .t => .ok "A"
  | .f =>
    if has_identity && has_financials && has_ntee then .ok "B"
    else if has_identity && (has_financials || has_ntee) then .ok "C"
    else if has_name && has_ein && has_address then .ok "D"
    else .ok "F"

/-- A record with identity, financial and contact data but both rating
fields missing: `assign_grade` raises on it. -/
def gradeCrashRow : Row :=
  mkRow [("org_name", .str "Veterans Support Alliance"),
         ("ein", .str "12-3456789"),
         ("street_address", .str "1 Main St"),
         ("total_revenue", .num 250000),
         ("phone", .str "(555) 123-4567")]

/-- A record with name, strong identifier and address only. -/
def gradeMinimalRow : Row :=
  mkRow [("org_name", .str "Veterans Support Alliance"),
         ("ein", .str "12-3456789"),
         ("street_address", .str "1 Main St")]

/-! ### `src/utils/checkpoint.py` and `src/extractors/base_extractor.py` -/

/-- The state of a stage's checkpoint file: missing, present but not
deserializable (`pickle.load` raises), or present and valid. -/
inductive CheckpointState where
  | absent : CheckpointState
  | corrupt : CheckpointState
  | valid : List Row → CheckpointState

/-- `has_checkpoint` (checkpoint.py lines 40-41): a pure existence check. -/
def hasCheckpoint : CheckpointState → Bool
  | .absent => false
  | _ => true

/-- `load_checkpoint` (checkpoint.py lines 25-37): `None` when the file is
missing or unpickling fails. -/
def loadCheckpoint : CheckpointState → Option (List Row)
  | .valid df => some df
  | _ => none

/-- `coerce_schema` (schema.py lines 93-106) as a row observes it: the
result frame carries exactly the canonical columns (`df[COLUMN_NAMES]`);
the dtype coercion is not observed by any claim. -/
def coerceSchemaRow (r : Row) : Row :=
  fun c => if c ∈ COLUMN_NAMES then r c else .na

/-- Python `in`-style substring containment over character lists
(structural, so concrete frames evaluate in the kernel). -/
def containsSub (sub : List Char) : List Char → Bool
  | [] => sub.isPrefixOf []
  | c :: t => sub.isPrefixOf (c :: t) || containsSub sub t

/-- The source-tagging step of `BaseExtractor.run` (base_extractor.py lines
49-55): fill missing provenance with `""`, append the adapter's name unless
the provenance substring-contains it already, stamp the freshness date. -/
def tagRow (name today : String) (r : Row) : Row :=
  fun c =>
    if c = "data_sources" then
      let ds : String := match r "data_sources" with
        | .str s => s
        | _ => ""
      if containsSub name.data ds.data then .str ds
      else .str ((if ds = "" then ds else ds ++ ";") ++ name)
    else if c = "data_freshness_date" then .str today
    else r c

/-- `BaseExtractor.run` (base_extractor.py lines 33-65): return the loaded
checkpoint when `resume` is requested and the checkpoint file exists;
otherwise extract, transform, coerce, tag and persist.  The persisted side
effects are dropped; the function returns what `run` returns. -/
def runExtractor (name : String) (resume : Bool) (cp : CheckpointState)
    (extracted : List Row) (transform : List Row → List Row) (today : String) :
    Option (List Row) :=
  if resume && hasCheckpoint cp then loadCheckpoint cp
  else some (((transform extracted).map coerceSchemaRow).map (tagRow name today))

/-! ### `src/utils/http_client.py` — `RateLimitedSession.get` -/

/-- What the client stores for and rebuilds from a cache entry
(http_client.py lines 94-99 and 105-111): status code, body, headers. -/
structure WebResp where
  status : Nat
  content : String
  headers : List (String × String)
deriving DecidableEq, Repr

/-- `_cache_key` (http_client.py lines 66-68) hashes
`f"{method}:{url}:{json.dumps(params)}"`; the key is modelled by that
pre-hash string (the hash only serves as a filename). -/
def cacheKey (method url params : String) : String :=
  method ++ ":" ++ url ++ ":" ++ params

/-- `_get_cached` (http_client.py lines 70-79): look the key up. -/
def getCached (cache : List (String × WebResp)) (k : String) : Option WebResp :=
  (cache.find? (fun p => p.1 == k)).map Prod.snd

/-- `_set_cached` (http_client.py lines 81-88): overwrite or create the
entry file for the key. -/
def setCached : List (String × WebResp) → String → WebResp → List (String × WebResp)
  | [], k, v => [(k, v)]
  | p :: ps, k, v => if p.1 == k then (k, v) :: ps else p :: setCached ps k v

/-- `RateLimitedSession.get` (http_client.py lines 90-113) over an explicit
cache state and a deterministic network oracle `net`.  Returns the
response, the updated cache, and how many network requests were issued. -/
def sessionGet (hasCacheDir useCache : Bool) (cache : List (String × WebResp))
    (net : String → String → WebResp) (url params : String) :
    WebResp × List (String × WebResp) × Nat :=
  let key := cacheKey "GET" url params
  if useCache && hasCacheDir then
    match getCached cache key with
    | some c => (c, cache, 0)
    | none =>
      let resp := net url params
      if resp.status == 200 then (resp, setCached cache key resp, 1)
      else (resp, cache, 1)
  else
    let resp := net url params
    if useCache && hasCacheDir && resp.status == 200 then
      (resp, setCached cache key resp, 1)
    else (resp, cache, 1)

/-! ### `src/loaders/deduplicator.py` — shared pieces -/

/-- Python `"x;y".split(";")` over character lists (structural). -/
def splitSemiAux : List Char → List Char → List String
  | [], acc => [⟨acc.reverse⟩]
  | c :: t, acc =>
    if c = ';' then ⟨acc.reverse⟩ :: splitSemiAux t []
    else splitSemiAux t (c :: acc)

/-- `s.split(";")`. -/
def splitSemi (s : String) : List String := splitSemiAux s.data []

/-- Python string comparison: lexicographic on code points (structural). -/
def charListLe : List Char → List Char → Bool
  | [], _ => true
  | _ :: _, [] => false
  | a :: as, b :: bs => if a < b then true else if b < a then false else charListLe as bs

/-- `sorted` on strings. -/
def sortStrs (l : List String) : List String :=
  List.insertionSort (fun a b => charListLe a.data b.data = true) l

/-- `";".join(l)`. -/
def joinSemi : List String → String
  | [] => ""
  | [s] => s
  | s :: rest => s ++ ";" ++ joinSemi rest

/-- The `data_sources` strings of a group (`group["data_sources"].dropna()`;
the column is string-typed, so only string cells contribute). -/
def groupSources (group : List Row) : List String :=
  group.foldr
    (fun r acc => match r "data_sources" with
      | .str s => splitSemi s ++ acc
      | _ => acc) []

/-- `_merge_rows` (deduplicator.py lines 28-48): a single row passes
through unchanged; otherwise start from the first row, fill every missing
cell with the group's first non-missing value for that column, and replace
`data_sources` by the sorted semicolon-join of the union of all source
sets (empty tokens discarded). -/
def mergeRows (group : List Row) : Row :=
  match group with
  | [] => fun _ => .na
  | [r] => r
  | r0 :: _ :: _ =>
    fun c =>
      if c = "data_sources" then
        .str (joinSemi (sortStrs ((groupSources group).dedup.filter (fun s => s ≠ ""))))
      else if (r0 c).isNa then
        match group.find? (fun r => !(r c).isNa) with
        | some r => r c
        | none => .na
      else r0 c

/-! ### Tier 1 — exact EIN -/

/-- The strong-identifier cell. -/
def einV (r : Row) : Val := r "ein"

/-- `df["ein"].notna() & (df["ein"] != "")` on one cell. -/
def hasEinV : Val → Bool
  | .na => false
  | .str s => decide (s ≠ "")
  | .num _ => true

/-- A record carries a usable strong identifier. -/
def hasEin (r : Row) : Bool := hasEinV (einV r)

/-- How many records of `l` carry the strong identifier `v`. -/
def einCount (l : List Row) (v : Val) : Nat :=
  (l.filter (fun r => einV r == v)).length

/-- `duplicated(subset=["ein"], keep=False)` for one record: its EIN occurs
at least twice among the EIN-bearing records. -/
def einDup (withEin : List Row) (r : Row) : Bool :=
  decide (2 ≤ einCount withEin (einV r))

/-- Sort order pandas uses for `groupby("ein")` keys. -/
def valKeyStr : Val → String
  | .na => ""
  | .str s => s
  | .num q => toString q

/-- `groupby` iterates keys in sorted order. -/
def sortVals (l : List Val) : List Val :=
  List.insertionSort (fun a b => charListLe (valKeyStr a).data (valKeyStr b).data = true) l

/-- The distinct duplicated EINs, in the order `groupby("ein")` visits them. -/
def tier1Keys (dups : List Row) : List Val := sortVals ((dups.map einV).dedup)

/-- `_tier1_exact_ein` (deduplicator.py lines 51-71): split off the records
without a usable EIN, pass singleton EINs through, merge each group of
records sharing an EIN with `_merge_rows`, and concatenate
`[unique, merged, without_ein]`. -/
def tier1 (df : List Row) : List Row :=
  let withEin := df.filter hasEin
  let withoutEin := df.filter (fun r => !(hasEin r))
  if withEin.isEmpty then df
  else
    let dups := withEin.filter (einDup withEin)
    let uniq := withEin.filter (fun r => !(einDup withEin r))
    if dups.isEmpty then df
    else
      uniq
        ++ (tier1Keys dups).map (fun k => mergeRows (dups.filter (fun r => einV r == k)))
        ++ withoutEin

/-- Two records sharing an EIN plus one without, for the C2 witness. -/
def t1RowA : Row := mkRow [("ein", .str "12-3456789"), ("phone", .str "(555) 123-4567")]

/-- Second record of the shared-EIN pair. -/
def t1RowB : Row := mkRow [("ein", .str "12-3456789"), ("website", .str "https://example-vets.org")]

/-- A record without a strong identifier. -/
def t1RowC : Row := mkRow [("org_name", .str "No EIN Org")]

/-! ### Tier 3 — root URL domain -/

/-- Split a character list at its first `':'`. -/
def splitColon : List Char → Option (List Char × List Char)
  | [] => none
  | c :: t =>
    if c = ':' then some ([], t)
    else match splitColon t with
      | some (a, b) => some (c :: a, b)
      | none => none

/-- A valid URL scheme: a letter followed by letters, digits, `+`, `-`, `.`. -/
def isSchemeChars : List Char → Bool
  | [] => false
  | c :: t => c.isAlpha && t.all (fun d => d.isAlphanum || d = '+' || d = '-' || d = '.')

/-- Drop a leading `scheme:` when present. -/
def afterScheme (l : List Char) : List Char :=
  match splitColon l with
  | some (sch, rest) => if isSchemeChars sch then rest else l
  | none => l

/-- `urlparse(url).netloc`: non-empty only when (after any scheme) the
string continues with `//`; then everything up to `/`, `?` or `#`. -/
def urlNetloc (s : String) : String :=
  match afterScheme s.data with
  | '/' :: '/' :: t => ⟨t.takeWhile (fun c => c ≠ '/' && c ≠ '?' && c ≠ '#')⟩
  | _ => ""

/-- `get_domain` (deduplicator.py lines 154-163): lowercase the netloc and
strip a leading `www.`. -/
def getDomain (v : Val) : String :=
  let d := (urlNetloc (pyStr v)).data.map Char.toLower
  if ("www.".data).isPrefixOf d then ⟨d.drop 4⟩ else ⟨d⟩

/-- `df["website"].notna() & (df["website"] != "")` on one record. -/
def hasUrl (r : Row) : Bool :=
  !(r "website").isNa && !((r "website") == .str "")

/-- How many records of `l` share the root domain `d`. -/
def domCount (l : List Row) (d : String) : Nat :=
  (l.filter (fun r => getDomain (r "website") == d)).length

/-- `_tier3_url_domain` (deduplicator.py lines 144-186): fewer than two
URL-bearing records pass the frame through; otherwise records whose URL
yields an empty domain are filtered out of `with_url` (and are in neither
concatenation that follows), singleton domains pass through, and records
sharing a domain are merged per group. -/
def tier3 (df : List Row) : List Row :=
  let withUrl := df.filter hasUrl
  let withoutUrl := df.filter (fun r => !(hasUrl r))
  if withUrl.length < 2 then df
  else
    let withUrl2 := withUrl.filter (fun r => getDomain (r "website") ≠ "")
    let dups := withUrl2.filter
      (fun r => decide (2 ≤ domCount withUrl2 (getDomain (r "website"))))
    let uniq := withUrl2.filter
      (fun r => !(decide (2 ≤ domCount withUrl2 (getDomain (r "website")))))
    if dups.isEmpty then withUrl2 ++ withoutUrl
    else
      uniq
        ++ (sortStrs ((dups.map (fun r => getDomain (r "website"))).dedup)).map
            (fun k => mergeRows (dups.filter (fun r => getDomain (r "website") == k)))
        ++ withoutUrl

/-- A record whose website URL has no scheme: `urlparse` yields an empty
netloc, so its domain is empty. -/
def t3RowA : Row := mkRow [("org_name", .str "Example Vets"), ("website", .str "example.com")]

/-- A second schemeless-website record. -/
def t3RowB : Row := mkRow [("org_name", .str "Other Vets"), ("website", .str "other.com")]

/-! ### Tier 2 — fuzzy name + city clustering -/

/-- Python `s.split()`: split on whitespace runs, discarding empties. -/
def splitWsAux : List Char → List Char → List String
  | [], acc => if acc.isEmpty then [] else [⟨acc.reverse⟩]
  | c :: t, acc =>
    if c.isWhitespace then
      if acc.isEmpty then splitWsAux t []
      else ⟨acc.reverse⟩ :: splitWsAux t []
    else splitWsAux t (c :: acc)

/-- `s.split()`. -/
def splitWs (s : String) : List String := splitWsAux s.data []

/-- `" ".join(l)`. -/
def joinSpace : List String → String
  | [] => ""
  | [s] => s
  | s :: rest => s ++ " " ++ joinSpace rest

/-- `" ".join(sorted(s.split()))`: the token-sorted form rapidfuzz's
`token_sort_ratio` compares. -/
def sortJoinTokens (s : String) : String := joinSpace (sortStrs (splitWs s))

/-- One row of the longest-common-subsequence table: `diag` is the previous
row's entry one column back, `left` the entry just written, `up :: rest`
the previous row from this column on. -/
def lcsRowAux (x : Char) : List Char → Nat → Nat → List Nat → List Nat
  | [], _, _, _ => []
  | _ :: _, _, _, [] => []
  | y :: ys, diag, left, up :: rest =>
    let here := if x = y then diag + 1 else max left up
    here :: lcsRowAux x ys up here rest

/-- Advance the LCS table by one character of the first string. -/
def lcsRow (x : Char) (ys : List Char) (prev : List Nat) : List Nat :=
  match prev with
  | [] => []
  | p0 :: ptail => 0 :: lcsRowAux x ys p0 0 ptail

/-- Length of the longest common subsequence (dynamic programming). -/
def lcsLen (xs ys : List Char) : Nat :=
  (xs.foldl (fun prev x => lcsRow x ys prev) (List.replicate (ys.length + 1) 0)).getLastD 0

/-- `fuzz.token_sort_ratio` (deduplicator.py line 106): sort the tokens of
both names, then the normalized indel similarity scaled to 0-100.  With
`dist = |a| + |b| - 2·lcs`, the score is `100·(1 - dist/(|a|+|b|))`,
i.e. exactly `200·lcs/(|a|+|b|)`. -/
def tokenSortScore (a b : String) : ℚ :=
  let a' := (sortJoinTokens a).data
  let b' := (sortJoinTokens b).data
  let total := a'.length + b'.length
  if total = 0 then 100 else mkRat (200 * lcsLen a' b') total

/-- `score >= threshold` (deduplicator.py line 107). -/
def linkB (t : ℚ) (a b : String) : Bool := decide (t ≤ tokenSortScore a b)

/-- The ordered pairs `(i, j)`, `i` before `j`, the bucket pass scores. -/
def orderedPairs : List (Nat × String) → List ((Nat × String) × (Nat × String))
  | [] => []
  | x :: rest => rest.map (fun y => (x, y)) ++ orderedPairs rest

/-- The single greedy clustering pass of `_tier2_fuzzy_name_city`
(deduplicator.py lines 98-114): scan the records of a bucket in order; an
already-matched record is skipped; an unmatched record collects every later
unmatched record whose name scores at or above the threshold; clusters of
size one are discarded. -/
def greedyClusters (t : ℚ) : List (Nat × String) → List Nat → List (List Nat)
  | [], _ => []
  | (i, ni) :: rest, matched =>
    if i ∈ matched then greedyClusters t rest matched
    else
      let links := rest.filter (fun p => decide (p.1 ∉ matched) && linkB t ni p.2)
      if links.isEmpty then greedyClusters t rest matched
      else (i :: links.map Prod.fst) :: greedyClusters t rest (matched ++ links.map Prod.fst)

/-- `df["city"].notna() & df["state"].notna() & df["org_name"].notna()`. -/
def hasLoc (r : Row) : Bool :=
  !(r "city").isNa && !(r "state").isNa && !(r "org_name").isNa

/-- `.str.upper()` on a cell. -/
def upperV : Val → String
  | .str s => ⟨s.data.map Char.toUpper⟩
  | _ => ""

/-- `state.upper() + "|" + city.upper()` (deduplicator.py lines 84-86). -/
def bucketKey (r : Row) : String := upperV (r "state") ++ "|" ++ upperV (r "city")

/-- The string content of a name cell. -/
def nameV : Val → String
  | .str s => s
  | _ => ""

/-- The location-complete candidates with their original row positions. -/
def tier2Candidates (df : List Row) : List (Nat × Row) :=
  df.enum.filter (fun p => hasLoc p.2)

/-- `groupby("_group_key")` iterates distinct keys in sorted order. -/
def tier2BucketKeys (cand : List (Nat × Row)) : List String :=
  sortStrs ((cand.map (fun p => bucketKey p.2)).dedup)

/-- The clusters the pass forms inside one bucket (buckets with fewer than
two records are skipped, deduplicator.py lines 92-93). -/
def tier2ClustersOfGroup (t : ℚ) (group : List (Nat × Row)) : List (List Nat) :=
  if group.length < 2 then []
  else greedyClusters t (group.map (fun p => (p.1, nameV (p.2 "org_name")))) []

/-- All clusters, in bucket order then formation order — the domain of the
pass's `merge_map`. -/
def tier2AllClusters (t : ℚ) (df : List Row) : List (List Nat) :=
  (tier2BucketKeys (tier2Candidates df)).flatMap
    (fun k => tier2ClustersOfGroup t
      ((tier2Candidates df).filter (fun p => bucketKey p.2 == k)))

/-- `len(merge_map)`: how many records the pass merges into clusters. -/
def tier2MergedCount (t : ℚ) (df : List Row) : Nat :=
  ((tier2AllClusters t df).map List.length).sum

/-- `_tier2_fuzzy_name_city` (deduplicator.py lines 74-141): candidates
need name, city and state; fewer than two candidates pass the frame
through; otherwise each cluster is merged with `_merge_rows` and the
output is `[unmerged, merged, no_location]`. -/
def tier2 (t : ℚ) (df : List Row) : List Row :=
  let cand := tier2Candidates df
  let noLoc := (df.enum.filter (fun p => !(hasLoc p.2))).map Prod.snd
  if cand.length < 2 then df
  else
    let clusters := tier2AllClusters t df
    if clusters.isEmpty then cand.map Prod.snd ++ noLoc
    else
      (cand.filter (fun p => decide (p.1 ∉ clusters.flatten))).map Prod.snd
        ++ clusters.map
            (fun cl => mergeRows ((cand.filter (fun p => decide (p.1 ∈ cl))).map Prod.snd))
        ++ noLoc

def exNameA : String := "aa bb cc dd ee ff gg hh rrrr ssss"
def exNameB : String := "aa bb cc dd ee ff gg hh ii jj"
def exNameC : String := "aa bb cc dd ff gg hh ii jj pppppp"
def exNameD : String := "aa bb cc dd ee gg hh ii jj qqqqqq"

/-- A concrete bucket of four records in one (state, city): at threshold
82 the pass clusters `{B, C, D}` (three records merged); at the lower
threshold 78 record `A` captures `B` first, so only `{A, B}` merge and `C`,
`D` stay apart. -/
def tier2Ex : List Row :=
  [mkRow [("org_name", .str exNameA), ("city", .str "Springfield"), ("state", .str "IL")],
   mkRow [("org_name", .str exNameB), ("city", .str "Springfield"), ("state", .str "IL")],
   mkRow [("org_name", .str exNameC), ("city", .str "Springfield"), ("state", .str "IL")],
   mkRow [("org_name", .str exNameD), ("city", .str "Springfield"), ("state", .str "IL")]]

/-! ### `src/loaders/merger.py` — `_smart_merge_on_ein` -/

/-- A DataFrame with an explicit column list (the merger adds and drops
columns).  The rows are total functions; dropping a column removes it from
`cols`, and every later read of a dropped column is guarded by a `cols`
membership test, as in the source. -/
structure Frame where
  cols : List String
  rows : List Row

/-- The suffixed column name pandas gives an overlapping source column
(`suffixes=("", f"_{source_name}")`). -/
def sfx (name c : String) : String := c ++ "_" ++ name

/-- `src_cols` minus `"ein"` (merger.py lines 80-85): the canonical source
columns that carry any data. -/
def srcTailCols (source : Frame) : List String :=
  source.cols.filter
    (fun c => c ≠ "ein" && decide (c ∈ COLUMN_NAMES) && source.rows.any (fun r => !(r c).isNa))

/-- `drop_duplicates(subset=["ein"])`: keep the first row per EIN value
(pandas treats missing keys as equal for duplicate detection). -/
def dropDupEin : List Row → List Val → List Row
  | [], _ => []
  | r :: rs, seen =>
    if r "ein" ∈ seen then dropDupEin rs seen
    else r :: dropDupEin rs (r "ein" :: seen)

/-- One output row of `base.merge(source_slim, on="ein", how="left",
suffixes=("", f"_{source_name}"))`: the base row, extended with the
suffixed source columns taken from the first slim row with a matching EIN
(missing when there is no match). -/
def joinRow (name : String) (srcTail : List String) (slim : List Row) (b : Row) : Row :=
  let m := slim.find? (fun s => s "ein" == b "ein")
  fun c =>
    match srcTail.find? (fun c0 => c == sfx name c0) with
    | some c0 =>
      (match m with
       | some s => s c0
       | none => .na)
    | none => b c

/-- One iteration of the fill loop (merger.py lines 93-100): when the
suffixed column is still present, fill every missing-or-empty base cell
from it, then drop the suffixed column. -/
def fillStep (name : String) (st : Frame) (c : String) : Frame :=
  if sfx name c ∈ st.cols then
    { cols := st.cols.erase (sfx name c),
      rows := st.rows.map (fun r => fun c' =>
        if c' = c then
          (if (r c).isNa || r c == .str "" then r (sfx name c) else r c)
        else r c') }
  else st

/-- The `data_sources` union block (merger.py lines 102-114): guarded on
the suffixed provenance column still being present; for rows whose source
provenance is non-missing it replaces `data_sources` by the sorted
semicolon-join of the union of both source sets. -/
def dsUnionStep (name : String) (st : Frame) : Frame :=
  if sfx name "data_sources" ∈ st.cols then
    { cols := st.cols.erase (sfx name "data_sources"),
      rows := st.rows.map (fun r => fun c' =>
        if c' = "data_sources" then
          (match r (sfx name "data_sources") with
           | .na => r "data_sources"
           | v =>
             let exParts := match r "data_sources" with
               | .str s => splitSemi s
               | _ => []
             let nsParts := match v with
               | .str s => splitSemi s
               | _ => []
             .str (joinSemi (sortStrs ((exParts ++ nsParts).dedup.filter (fun s => s ≠ "")))))
        else r c') }
  else st

/-- `_smart_merge_on_ein` (merger.py lines 72-121): skip sources without a
usable EIN column; left-join the deduplicated source slim frame onto the
base by EIN; run the fill loop over the data-carrying source columns; run
the provenance-union block; drop any remaining suffixed columns. -/
def smartMergeOnEin (base source : Frame) (name : String) : Frame :=
  if "ein" ∉ source.cols ∨ source.rows.all (fun r => (r "ein").isNa) then base
  else
    let srcTail := srcTailCols source
    let slim := dropDupEin source.rows []
    let st0 : Frame :=
      { cols := base.cols ++ srcTail.map (sfx name),
        rows := base.rows.map (joinRow name srcTail slim) }
    let st1 := srcTail.foldl (fillStep name) st0
    let st2 := dsUnionStep name st1
    { cols := st2.cols.filter (fun c => !(("_" ++ name).data.isSuffixOf c.data)),
      rows := st2.rows }

/-- Base frame for the provenance example: one record, EIN and provenance
`"irs_bmf"`. -/
def c5Base : Frame :=
  { cols := COLUMN_NAMES,
    rows := [mkRow [("ein", .str "12-3456789"), ("data_sources", .str "irs_bmf")]] }

/-- Source frame: the same EIN, provenance `"propublica"`. -/
def c5Src : Frame :=
  { cols := COLUMN_NAMES,
    rows := [mkRow [("ein", .str "12-3456789"), ("data_sources", .str "propublica")]] }

/-- Base record for the C1 witness: EIN, phone, provenance present. -/
def w1Row : Row :=
  mkRow [("ein", .str "12-3456789"), ("phone", .str "(555) 111-2222"),
         ("data_sources", .str "irs_bmf")]

/-- Base frame for the C1 witness. -/
def w1Base : Frame := { cols := COLUMN_NAMES, rows := [w1Row] }

/-- Source frame for the C1 witness: same EIN, a competing phone value. -/
def w1Src : Frame :=
  { cols := COLUMN_NAMES,
    rows := [mkRow [("ein", .str "12-3456789"), ("phone", .str "(555) 999-0000"),
                    ("data_sources", .str "propublica")]] }

/-- A fixed 200 response for the C9 witness. -/
def c9Resp : WebResp := { status := 200, content := "ok", headers := [] }

/-- A network oracle that always answers with `c9Resp`. -/
def c9Net : String → String → WebResp := fun _ _ => c9Resp

/-! ### Results: the claim theorems and their supporting lemmas -/

theorem einDigits_all_digit (s : String) : ∀ c ∈ einDigits s, c.isDigit := by
  intro c hc
  exact List.of_mem_filter hc

/-- C10: `normalize_ein` returns `None` unless the input holds exactly nine
digit characters; a successful result has the two-digit/hyphen/seven-digit
shape and is a fixed point of `normalize_ein`. -/
theorem normalize_ein_shape_and_idempotent (s : String) :
    (normalizeEin (some s) = none ↔ (einDigits s).length ≠ 9) ∧
    (∀ o, normalizeEin (some s) = some o →
      einShapeOk o.data = true ∧ normalizeEin (some o) = some o) := by
  constructor
  · by_cases h : (einDigits s).length = 9 <;> simp [normalizeEin, h]
  · intro o ho
    by_cases h : (einDigits s).length = 9
    · simp only [normalizeEin, h, ne_eq, not_true_eq_false, if_neg,
        not_false_eq_true, Option.some.injEq, ite_false] at ho
      subst ho
      set A := (einDigits s).take 2 with hAdef
      set B := (einDigits s).drop 2 with hBdef
      have hdata : ((⟨A⟩ ++ "-" ++ ⟨B⟩ : String)).data = A ++ '-' :: B := by
        show (A ++ ['-']) ++ B = A ++ '-' :: B
        simp [List.append_assoc]
      have htk : A.length = 2 := by
        rw [hAdef, List.length_take]; omega
      have hdr : B.length = 7 := by
        rw [hBdef, List.length_drop]; omega
      have htkd : ∀ c ∈ A, c.isDigit := by
        intro c hc; exact einDigits_all_digit s c (List.mem_of_mem_take hc)
      have hdrd : ∀ c ∈ B, c.isDigit := by
        intro c hc; exact einDigits_all_digit s c (List.mem_of_mem_drop hc)
      constructor
      · rw [einShapeOk, hdata]
        have h1 : (A ++ '-' :: B).length = 10 := by
          simp [List.length_append, htk, hdr]
        have h2 : (A ++ '-' :: B).take 2 = A := List.take_left' htk
        have h3 : (A ++ '-' :: B).drop 2 = '-' :: B := List.drop_left' htk
        have h4 : (A ++ '-' :: B).drop 3 = B := by
          have hlen : (A ++ ['-']).length = 3 := by simp [htk]
          calc (A ++ '-' :: B).drop 3 = ((A ++ ['-']) ++ B).drop 3 := by
                rw [List.append_assoc]; rfl
            _ = B := List.drop_left' hlen
        simp only [h1, h2, h3, h4, List.take_cons, List.take_zero, beq_self_eq_true,
          Bool.true_and, Bool.and_eq_true, List.all_eq_true]
        exact ⟨⟨fun c hc => htkd c hc, rfl⟩, fun c hc => hdrd c hc⟩
      · have hfil : einDigits (⟨A⟩ ++ "-" ++ ⟨B⟩) = einDigits s := by
          show ((⟨A⟩ ++ "-" ++ ⟨B⟩ : String)).data.filter Char.isDigit = einDigits s
          rw [hdata, List.filter_append]
          have hA : A.filter Char.isDigit = A :=
            List.filter_eq_self.2 (fun c hc => htkd c hc)
          have hB : ('-' :: B).filter Char.isDigit = B := by
            rw [List.filter_cons]
            simp only [show ('-' : Char).isDigit = false from rfl, if_false]
            exact List.filter_eq_self.2 (fun c hc => hdrd c hc)
          rw [hA, hB, hAdef, hBdef, List.take_append_drop]
        show normalizeEin (some _) = _
        rw [normalizeEin]
        simp only [hfil, h, ne_eq, not_true_eq_false, if_neg, not_false_eq_true, ite_false]
    · simp [normalizeEin, h] at ho

theorem confidence_foldl_eq_filter_sum (r : Row) (l : List (String × ℚ)) (a : ℚ) :
    l.foldl (fun acc p => acc + (if rowHas r p.1 then (1 : ℚ) else 0) * p.2) a
      = a + ((l.filter (fun p => rowHas r p.1)).map Prod.snd).sum := by
  induction l generalizing a with
  | nil => simp
  | cons p ps ih =>
    rw [List.foldl_cons, ih, List.filter_cons]
    by_cases h : rowHas r p.1 <;> (simp [h]; try ring)

theorem filter_sum_nonneg_le (f : String × ℚ → Bool) (l : List (String × ℚ))
    (hpos : ∀ p ∈ l, 0 ≤ p.2) :
    0 ≤ ((l.filter f).map Prod.snd).sum ∧
      ((l.filter f).map Prod.snd).sum ≤ (l.map Prod.snd).sum := by
  induction l with
  | nil => simp
  | cons p ps ih =>
    have hp := hpos p (List.mem_cons_self p ps)
    have hps := ih (fun q hq => hpos q (List.mem_cons_of_mem p hq))
    rw [List.filter_cons]
    by_cases h : f p
    · simp only [h, if_true, List.map_cons, List.sum_cons]
      constructor
      · exact add_nonneg hp hps.1
      · exact add_le_add_left hps.2 _
    · simp only [h, if_false, List.map_cons, List.sum_cons]
      constructor
      · exact hps.1
      · calc ((ps.filter f).map Prod.snd).sum ≤ (ps.map Prod.snd).sum := hps.2
          _ ≤ p.2 + (ps.map Prod.snd).sum := le_add_of_nonneg_left hp

theorem weights_nonneg : ∀ p ∈ CONFIDENCE_WEIGHTS, 0 ≤ p.2 := by
  intro p hp
  fin_cases hp <;> norm_num

theorem totalWeight_eq_one : totalWeight = 1 := by
  simp only [totalWeight, CONFIDENCE_WEIGHTS, List.map_cons, List.map_nil,
    List.sum_cons, List.sum_nil]
  norm_num

theorem round3_mem_unit {q : ℚ} (h0 : 0 ≤ q) (h1 : q ≤ 1) :
    0 ≤ round3 q ∧ round3 q ≤ 1 := by
  have hr : round (1000 * q) = ⌊1000 * q + 1 / 2⌋ := round_eq _
  have hlow : (0 : ℤ) ≤ round (1000 * q) := by
    rw [hr]
    exact Int.le_floor.2 (by push_cast; linarith)
  have hhigh : round (1000 * q) ≤ 1000 := by
    rw [hr]
    have hlt : ⌊1000 * q + 1 / 2⌋ < (1001 : ℤ) :=
      Int.floor_lt.2 (by push_cast; linarith)
    omega
  constructor
  · exact div_nonneg (by exact_mod_cast hlow) (by norm_num)
  · rw [round3, div_le_one (by norm_num)]
    exact_mod_cast hhigh

/-- C6: the confidence score of a record equals the sum of the weights of
exactly the filled (non-absent, non-blank) weighted attributes, divided by
the total configured weight and rounded to three decimals, and always lies
in `[0, 1]`. -/
theorem confidence_is_filled_weight_share (r : Row) :
    rowConfidence r
        = round3 (((CONFIDENCE_WEIGHTS.filter (fun p => rowHas r p.1)).map Prod.snd).sum
            / totalWeight) ∧
      0 ≤ rowConfidence r ∧ rowConfidence r ≤ 1 := by
  have heq : rowConfidence r
      = round3 (((CONFIDENCE_WEIGHTS.filter (fun p => rowHas r p.1)).map Prod.snd).sum
          / totalWeight) := by
    rw [rowConfidence, confidence_foldl_eq_filter_sum r CONFIDENCE_WEIGHTS 0, zero_add]
  have hb := filter_sum_nonneg_le (fun p => rowHas r p.1) CONFIDENCE_WEIGHTS weights_nonneg
  have hq0 : 0 ≤ ((CONFIDENCE_WEIGHTS.filter (fun p => rowHas r p.1)).map Prod.snd).sum
      / totalWeight := by
    rw [totalWeight_eq_one, div_one]
    exact hb.1
  have hq1 : ((CONFIDENCE_WEIGHTS.filter (fun p => rowHas r p.1)).map Prod.snd).sum
      / totalWeight ≤ 1 := by
    rw [totalWeight_eq_one, div_one]
    calc ((CONFIDENCE_WEIGHTS.filter (fun p => rowHas r p.1)).map Prod.snd).sum
        ≤ (CONFIDENCE_WEIGHTS.map Prod.snd).sum := hb.2
      _ = 1 := totalWeight_eq_one
  have hbnd := round3_mem_unit hq0 hq1
  exact ⟨heq, heq ▸ hbnd.1, heq ▸ hbnd.2⟩

/-- C7 (code bug): on a record with identity, financials and contact but
both rating cells missing, `assign_grade` raises `TypeError`
(`bool(pd.NA)`) instead of returning the highest matching tier "C"; the
minimal name+EIN+address record does receive grade "D" as the claim
states. -/
theorem assign_grade_crashes_on_missing_rating :
    assignGrade gradeCrashRow = .error () ∧ assignGrade gradeMinimalRow = .ok "D" :=
  ⟨rfl, rfl⟩

/-- C8 (code bug): with `resume` requested and a corrupt checkpoint, `run`
returns `None` (the existence check passes, `load_checkpoint` returns
`None`) instead of falling back to the fresh
extract-transform-persist run, which does produce a result. -/
theorem run_with_corrupt_checkpoint_returns_none (name today : String)
    (extracted : List Row) (transform : List Row → List Row) :
    runExtractor name true .corrupt extracted transform today = none ∧
      (runExtractor name false .corrupt extracted transform today).isSome = true :=
  ⟨rfl, rfl⟩

theorem getCached_setCached (cache : List (String × WebResp)) (k : String) (v : WebResp) :
    getCached (setCached cache k v) k = some v := by
  induction cache with
  | nil => simp [setCached, getCached]
  | cons p ps ih =>
    rw [setCached]
    by_cases h : p.1 == k
    · simp [h, getCached]
    · simp only [h, Bool.false_eq_true, if_false]
      rw [getCached, List.find?_cons_of_neg _ (by simp [h])]
      exact ih

/-- C9: with caching enabled, a cache hit returns the stored response with
no network request; a miss issues exactly one request and writes the cache
only when the status is 200; hence a repeated identical request after a 200
response issues no network traffic and leaves the cache unchanged. -/
theorem cached_get_avoids_network (cache : List (String × WebResp))
    (net : String → String → WebResp) (url params : String) :
    (∀ c, getCached cache (cacheKey "GET" url params) = some c →
        sessionGet true true cache net url params = (c, cache, 0)) ∧
    (getCached cache (cacheKey "GET" url params) = none →
        (sessionGet true true cache net url params).2.2 = 1 ∧
        (sessionGet true true cache net url params).2.1
          = (if (net url params).status == 200
             then setCached cache (cacheKey "GET" url params) (net url params)
             else cache)) ∧
    (getCached cache (cacheKey "GET" url params) = none →
      (net url params).status = 200 →
        (sessionGet true true (sessionGet true true cache net url params).2.1
            net url params).2.2 = 0 ∧
        (sessionGet true true (sessionGet true true cache net url params).2.1
            net url params).2.1
          = (sessionGet true true cache net url params).2.1) := by
  refine ⟨?_, ?_, ?_⟩
  · intro c hc
    simp [sessionGet, hc]
  · intro hm
    constructor
    · rw [sessionGet]
      simp only [Bool.and_self, if_true, hm]
      by_cases h : (net url params).status == 200 <;> simp [h]
    · rw [sessionGet]
      simp only [Bool.and_self, if_true, hm]
      by_cases h : (net url params).status == 200 <;> simp [h]
  · intro hm h200
    have hfirst : (sessionGet true true cache net url params).2.1
        = setCached cache (cacheKey "GET" url params) (net url params) := by
      rw [sessionGet]
      simp [hm, h200]
    have hhit : getCached (sessionGet true true cache net url params).2.1
        (cacheKey "GET" url params) = some (net url params) := by
      rw [hfirst]
      exact getCached_setCached _ _ _
    constructor
    · rw [sessionGet]
      simp [hhit]
    · rw [sessionGet]
      simp [hhit]

theorem hasEinV_not_na {v : Val} (h : hasEinV v = true) : v.isNa = false := by
  cases v <;> simp [hasEinV, Val.isNa] at *

theorem mergeRows_einV (group : List Row) (k : Val) (hne : group ≠ [])
    (hall : ∀ r ∈ group, einV r = k) (hk : hasEinV k = true) :
    einV (mergeRows group) = k := by
  match group with
  | [] => exact absurd rfl hne
  | [r] => exact hall r (by simp)
  | r0 :: r1 :: rest =>
    have h0 : einV r0 = k := hall r0 (by simp)
    have hna : (r0 "ein").isNa = false := by
      have h1 : hasEinV (r0 "ein") = true := by
        rw [show r0 "ein" = einV r0 from rfl, h0]
        exact hk
      exact hasEinV_not_na h1
    show mergeRows (r0 :: r1 :: rest) "ein" = k
    simp only [mergeRows, if_neg (show ¬(("ein" : String) = "data_sources") by decide), hna,
      Bool.false_eq_true, if_false]
    exact h0

theorem einCount_append (a b : List Row) (v : Val) :
    einCount (a ++ b) v = einCount a v + einCount b v := by
  simp [einCount, List.filter_append]

theorem einCount_filter_le (q : Row → Bool) (l : List Row) (v : Val) :
    einCount (l.filter q) v ≤ einCount l v := by
  have h : List.Sublist ((l.filter q).filter (fun r => einV r == v))
      (l.filter (fun r => einV r == v)) :=
    List.Sublist.filter _ (List.filter_sublist l)
  exact h.length_le

theorem einCount_eq_zero_of_not_mem (l : List Row) (v : Val)
    (h : ∀ r ∈ l, einV r ≠ v) : einCount l v = 0 := by
  rw [einCount, List.length_eq_zero]
  exact List.filter_eq_nil_iff.2 (fun r hr => by simpa using h r hr)

theorem mapped_merge_count (mergeFn : Val → Row) (keys : List Val) (v : Val)
    (hfn : ∀ k ∈ keys, einV (mergeFn k) = k) :
    einCount (keys.map mergeFn) v = (keys.filter (fun k => k == v)).length := by
  induction keys with
  | nil => simp [einCount]
  | cons k ks ih =>
    have hk := hfn k (by simp)
    have hks : ∀ k' ∈ ks, einV (mergeFn k') = k' := fun k' hk' => hfn k' (by simp [hk'])
    rw [List.map_cons, einCount, List.filter_cons, List.filter_cons, hk]
    by_cases h : (k == v)
    · simp only [h, if_true, List.length_cons]
      have := ih hks
      rw [einCount] at this
      omega
    · simp only [h, Bool.false_eq_true, if_false]
      have := ih hks
      rw [einCount] at this
      exact this

theorem nodup_filter_beq_len_le_one (l : List Val) (v : Val) (hnd : l.Nodup) :
    (l.filter (fun k => k == v)).length ≤ 1 := by
  induction l with
  | nil => simp
  | cons a t ih =>
    rw [List.filter_cons]
    have hnd' := hnd.of_cons
    by_cases h : a = v
    · subst h
      simp only [beq_self_eq_true, if_pos, List.length_cons]
      have hnotin : a ∉ t := (List.nodup_cons.1 hnd).1
      have : t.filter (fun k => k == a) = [] :=
        List.filter_eq_nil_iff.2 (fun k hk hbeq => hnotin (by
          have : k = a := by simpa using hbeq
          exact this ▸ hk))
      rw [this]
      simp
    · have hb : (a == v) = false := by simp [h]
      simp only [hb, Bool.false_eq_true, if_false]
      exact ih hnd'

theorem tier1Keys_nodup (dups : List Row) : (tier1Keys dups).Nodup := by
  have hperm := List.perm_insertionSort
    (fun a b => charListLe (valKeyStr a).data (valKeyStr b).data = true)
    ((dups.map einV).dedup)
  exact hperm.nodup_iff.2 (List.nodup_dedup _)

theorem tier1Keys_mem (dups : List Row) (k : Val) :
    k ∈ tier1Keys dups ↔ k ∈ dups.map einV := by
  have hperm := List.perm_insertionSort
    (fun a b => charListLe (valKeyStr a).data (valKeyStr b).data = true)
    ((dups.map einV).dedup)
  rw [tier1Keys, sortVals, hperm.mem_iff, List.mem_dedup]

theorem hasEin_of_einV_eq {r : Row} {v : Val} (hv : hasEinV v = true)
    (heq : einV r = v) : hasEin r = true := by
  rw [hasEin, heq]
  exact hv

/-- C2: after Tier-1 dedup no usable strong identifier is carried by two
surviving records (every non-absent EIN value keys at most one record), and
the records lacking a usable strong identifier pass through unchanged. -/
theorem tier1_unique_ein_and_passthrough (df : List Row) (v : Val)
    (hv : hasEinV v = true) :
    einCount (tier1 df) v ≤ 1 ∧
      (tier1 df).filter (fun r => !(hasEin r)) = df.filter (fun r => !(hasEin r)) := by
  by_cases hc1 : (df.filter hasEin).isEmpty
  · have htier : tier1 df = df := by
      simp only [tier1, hc1, if_true]
    refine ⟨?_, by rw [htier]⟩
    rw [htier]
    have hall : ∀ r ∈ df, ¬(hasEin r = true) := by
      intro r hr
      have : df.filter hasEin = [] := List.isEmpty_iff.1 hc1
      intro habs
      have : r ∈ df.filter hasEin := List.mem_filter.2 ⟨hr, habs⟩
      simp_all
    have h0 : einCount df v = 0 :=
      einCount_eq_zero_of_not_mem df v
        (fun r hr heq => hall r hr (hasEin_of_einV_eq hv heq))
    omega
  · have hc1' : (df.filter hasEin).isEmpty = false := by
      simpa using hc1
    by_cases hc2 : ((df.filter hasEin).filter (einDup (df.filter hasEin))).isEmpty
    · have htier : tier1 df = df := by
        simp only [tier1, hc1', Bool.false_eq_true, if_false, hc2, if_true]
      refine ⟨?_, by rw [htier]⟩
      rw [htier]
      by_contra hgt
      have h2 : 2 ≤ einCount df v := by omega
      have heqc : einCount (df.filter hasEin) v = einCount df v := by
        rw [einCount, List.filter_filter, einCount]
        congr 1
        apply List.filter_congr
        intro r hr
        by_cases hb : (einV r == v) = true
        · have : hasEin r = true := hasEin_of_einV_eq hv (by simpa using hb)
          simp [hb, this]
        · simp only [Bool.not_eq_true] at hb
          simp [hb]
      have hpos : 0 < ((df.filter hasEin).filter (fun r => einV r == v)).length := by
        have : einCount (df.filter hasEin) v = einCount df v := heqc
        rw [einCount] at this
        omega
      obtain ⟨r, hrmem⟩ := List.exists_mem_of_length_pos hpos
      have hre := List.mem_filter.1 hrmem
      have hrv : einV r = v := by simpa using hre.2
      have hrdup : einDup (df.filter hasEin) r = true := by
        rw [einDup, decide_eq_true_iff, hrv]
        omega
      have : r ∈ (df.filter hasEin).filter (einDup (df.filter hasEin)) :=
        List.mem_filter.2 ⟨hre.1, hrdup⟩
      have := List.isEmpty_iff.1 hc2
      simp_all
    · have hc2' : ((df.filter hasEin).filter (einDup (df.filter hasEin))).isEmpty = false := by
        simpa using hc2
      have htier : tier1 df
          = (df.filter hasEin).filter (fun r => !(einDup (df.filter hasEin) r))
            ++ (tier1Keys ((df.filter hasEin).filter (einDup (df.filter hasEin)))).map
                (fun k => mergeRows
                  (((df.filter hasEin).filter (einDup (df.filter hasEin))).filter
                    (fun r => einV r == k)))
            ++ df.filter (fun r => !(hasEin r)) := by
        simp only [tier1, hc1', Bool.false_eq_true, if_false, hc2']
      set withEin := df.filter hasEin with hWE
      set dups := withEin.filter (einDup withEin) with hDU
      set keys := tier1Keys dups with hKY
      set mergeFn := fun k => mergeRows (dups.filter (fun r => einV r == k)) with hMF
      have hkey : ∀ k ∈ keys, hasEinV k = true ∧ einV (mergeFn k) = k := by
        intro k hk
        have hkmem : k ∈ dups.map einV := (tier1Keys_mem dups k).1 hk
        obtain ⟨r, hrdups, hrk⟩ := List.mem_map.1 hkmem
        have hrWE : r ∈ withEin := (List.mem_filter.1 hrdups).1
        have hrhas : hasEin r = true := (List.mem_filter.1 hrWE).2
        have hkk : hasEinV k = true := by
          rw [← hrk]
          exact hrhas
        refine ⟨hkk, ?_⟩
        have hgrmem : r ∈ dups.filter (fun r' => einV r' == k) :=
          List.mem_filter.2 ⟨hrdups, by simp [hrk]⟩
        refine mergeRows_einV _ k (List.ne_nil_of_mem hgrmem) ?_ hkk
        intro r' hr'
        have := (List.mem_filter.1 hr').2
        simpa using this
      have hcw : einCount (df.filter (fun r => !(hasEin r))) v = 0 := by
        apply einCount_eq_zero_of_not_mem
        intro r hr heq
        have hnot := (List.mem_filter.1 hr).2
        have := hasEin_of_einV_eq hv heq
        simp_all
      have hcm : einCount (keys.map mergeFn) v = (keys.filter (fun k => k == v)).length :=
        mapped_merge_count mergeFn keys v (fun k hk => (hkey k hk).2)
      constructor
      · rw [htier, einCount_append, einCount_append]
        by_cases hd : 2 ≤ einCount withEin v
        · have hcu : einCount (withEin.filter (fun r => !(einDup withEin r))) v = 0 := by
            apply einCount_eq_zero_of_not_mem
            intro r hr heq
            have hnot := (List.mem_filter.1 hr).2
            rw [einDup, heq] at hnot
            simp [hd] at hnot
          have hle := nodup_filter_beq_len_le_one keys v (tier1Keys_nodup dups)
          rw [hcu, hcm, hcw]
          omega
        · have hcu : einCount (withEin.filter (fun r => !(einDup withEin r))) v
              ≤ einCount withEin v := einCount_filter_le _ _ _
          have hm0 : (keys.filter (fun k => k == v)).length = 0 := by
            rw [List.length_eq_zero]
            apply List.filter_eq_nil_iff.2
            intro k hk hbeq
            have hkv : k = v := by simpa using hbeq
            subst hkv
            have hkmem : k ∈ dups.map einV := (tier1Keys_mem dups k).1 hk
            obtain ⟨r, hrdups, hrk⟩ := List.mem_map.1 hkmem
            have hrdup := (List.mem_filter.1 hrdups).2
            rw [einDup, hrk, decide_eq_true_iff] at hrdup
            exact hd hrdup
          rw [hcm, hm0, hcw]
          omega
      · rw [htier, List.filter_append, List.filter_append]
        have hu : (withEin.filter (fun r => !(einDup withEin r))).filter
            (fun r => !(hasEin r)) = [] := by
          apply List.filter_eq_nil_iff.2
          intro r hr
          have hrWE : r ∈ withEin := (List.mem_filter.1 hr).1
          have := (List.mem_filter.1 hrWE).2
          simp [this]
        have hm : (keys.map mergeFn).filter (fun r => !(hasEin r)) = [] := by
          apply List.filter_eq_nil_iff.2
          intro m hm
          obtain ⟨k, hk, hmk⟩ := List.mem_map.1 hm
          have hkk := hkey k hk
          have : hasEin m = true := by
            rw [← hmk] at *
            rw [hasEin, hkk.2]
            exact hkk.1
          simp [this]
        have hw : (df.filter (fun r => !(hasEin r))).filter (fun r => !(hasEin r))
            = df.filter (fun r => !(hasEin r)) := by
          apply List.filter_eq_self.2
          intro r hr
          exact (List.mem_filter.1 hr).2
        rw [hu, hm, hw, List.nil_append, List.nil_append]

/-- Witness for C2 at a concrete frame: the hypothesis holds for the shared
EIN value and the theorem applies. -/
theorem tier1_unique_ein_witness :
    hasEinV (Val.str "12-3456789") = true ∧
      (einCount (tier1 [t1RowA, t1RowB, t1RowC]) (Val.str "12-3456789") ≤ 1 ∧
        (tier1 [t1RowA, t1RowB, t1RowC]).filter (fun r => !(hasEin r))
          = ([t1RowA, t1RowB, t1RowC] : List Row).filter (fun r => !(hasEin r))) :=
  ⟨rfl, tier1_unique_ein_and_passthrough [t1RowA, t1RowB, t1RowC] (Val.str "12-3456789") rfl⟩

/-- C4 (code bug): two records whose websites parse to an empty domain are
silently dropped by Tier 3 — the output is empty although the claim (and
spec) say records with unparsable URLs pass through untouched. -/
theorem tier3_drops_unparsable_url_records :
    tier3 [t3RowA, t3RowB] = [] := rfl

set_option maxRecDepth 100000 in
/-- C3 counterexample: on `tier2Ex` (one fixed bucket) the lower threshold
78 merges two records while the higher threshold 82 merges three — lowering
the threshold decreased the number of records merged. -/
theorem tier2_lower_threshold_merges_fewer :
    (78 : ℚ) < 82 ∧ tier2MergedCount 78 tier2Ex = 2 ∧ tier2MergedCount 82 tier2Ex = 3 := by
  refine ⟨by norm_num, by decide, by decide⟩

/-- C3 (amended): the pairwise link relation is antitone in the threshold —
every pair scoring at or above the higher threshold also links at the lower
one, so the linked-pair list only grows as the threshold drops. -/
theorem tier2_links_antitone (t1 t2 : ℚ) (items : List (Nat × String)) (h : t1 ≤ t2) :
    List.Sublist ((orderedPairs items).filter (fun pq => linkB t2 pq.1.2 pq.2.2))
        ((orderedPairs items).filter (fun pq => linkB t1 pq.1.2 pq.2.2)) ∧
      ((orderedPairs items).filter (fun pq => linkB t2 pq.1.2 pq.2.2)).length
        ≤ ((orderedPairs items).filter (fun pq => linkB t1 pq.1.2 pq.2.2)).length := by
  have hsub := List.monotone_filter_right (orderedPairs items)
    (p := fun pq => linkB t2 pq.1.2 pq.2.2) (q := fun pq => linkB t1 pq.1.2 pq.2.2)
    (fun pq hpq => by
      simp only [linkB, decide_eq_true_eq] at hpq ⊢
      exact le_trans h hpq)
  exact ⟨hsub, hsub.length_le⟩

/-- Witness for the amended C3 theorem at the concrete bucket's name pairs
and thresholds 78 ≤ 82. -/
theorem tier2_links_antitone_witness :
    (78 : ℚ) ≤ 82 ∧
      (List.Sublist
          ((orderedPairs ((List.enum [exNameA, exNameB, exNameC, exNameD]).map
              (fun p => (p.1, p.2)))).filter (fun pq => linkB 82 pq.1.2 pq.2.2))
          ((orderedPairs ((List.enum [exNameA, exNameB, exNameC, exNameD]).map
              (fun p => (p.1, p.2)))).filter (fun pq => linkB 78 pq.1.2 pq.2.2)) ∧
        ((orderedPairs ((List.enum [exNameA, exNameB, exNameC, exNameD]).map
            (fun p => (p.1, p.2)))).filter (fun pq => linkB 82 pq.1.2 pq.2.2)).length
          ≤ ((orderedPairs ((List.enum [exNameA, exNameB, exNameC, exNameD]).map
              (fun p => (p.1, p.2)))).filter (fun pq => linkB 78 pq.1.2 pq.2.2)).length) :=
  ⟨by norm_num, tier2_links_antitone 78 82 _ (by norm_num)⟩

/-- C5 (code bug): the keyed merge keeps only the base record's provenance.
Because `data_sources` is itself a canonical data-carrying column, the fill
loop consumes and drops `data_sources_propublica` before the union block
tests for it, so the union block never runs and the source's provenance is
lost — the result is `"irs_bmf"`, not `"irs_bmf;propublica"`. -/
theorem smart_merge_loses_source_provenance :
    ((smartMergeOnEin c5Base c5Src "propublica").rows.get? 0).map (fun r => r "data_sources")
        = some (Val.str "irs_bmf") ∧
      ((smartMergeOnEin c5Base c5Src "propublica").rows.get? 0).map (fun r => r "data_sources")
        ≠ some (Val.str "irs_bmf;propublica") := by
  refine ⟨by decide, by decide⟩

theorem no_canonical_has_source_suffix :
    ∀ c ∈ COLUMN_NAMES, ∀ n ∈ SOURCE_PRIORITY,
      (("_" ++ n).data).isSuffixOf c.data = false := by decide

theorem sfx_data (n c : String) : (sfx n c).data = c.data ++ '_' :: n.data := by
  show (c.data ++ '_' :: List.nil) ++ n.data = c.data ++ '_' :: n.data
  simp [List.append_assoc]

theorem canonical_ne_sfx {c' : String} (hc' : c' ∈ COLUMN_NAMES) {n : String}
    (hn : n ∈ SOURCE_PRIORITY) (c0 : String) : c' ≠ sfx n c0 := by
  intro h
  have hdata : c'.data = c0.data ++ '_' :: n.data := by
    rw [h, sfx_data]
  have hsuffix : ("_" ++ n).data <:+ c'.data := by
    rw [hdata]
    exact ⟨c0.data, rfl⟩
  have : (("_" ++ n).data).isSuffixOf c'.data = true :=
    List.isSuffixOf_iff_suffix.2 hsuffix
  rw [no_canonical_has_source_suffix c' hc' n hn] at this
  exact Bool.false_ne_true this

theorem sfx_injective {n a b : String} (h : sfx n a = sfx n b) : a = b := by
  have hdata : a.data ++ '_' :: n.data = b.data ++ '_' :: n.data := by
    rw [← sfx_data, ← sfx_data, h]
  have h2 := List.append_cancel_right hdata
  cases a; cases b
  exact congrArg String.mk h2

theorem fillStep_cols_subset (name : String) (st : Frame) (c : String) :
    (fillStep name st c).cols ⊆ st.cols := by
  rw [fillStep]
  by_cases h : sfx name c ∈ st.cols
  · rw [if_pos h]
    exact List.erase_subset _ _
  · rw [if_neg h]
    exact fun a ha => ha

theorem fillFold_cols_subset (name : String) (L : List String) (st : Frame) :
    (L.foldl (fillStep name) st).cols ⊆ st.cols := by
  induction L generalizing st with
  | nil => exact fun a ha => ha
  | cons c L' ih =>
    rw [List.foldl_cons]
    exact fun a ha => fillStep_cols_subset name st c (ih (fillStep name st c) ha)

theorem fillStep_cols_nodup (name : String) (st : Frame) (c : String)
    (h : st.cols.Nodup) : (fillStep name st c).cols.Nodup := by
  rw [fillStep]
  by_cases hg : sfx name c ∈ st.cols
  · rw [if_pos hg]
    exact (List.erase_sublist _ _).nodup h
  · rw [if_neg hg]
    exact h

theorem fillFold_not_mem (name : String) (L : List String) (st : Frame) (c0 : String)
    (hmem : c0 ∈ L) (hnd : st.cols.Nodup) :
    sfx name c0 ∉ (L.foldl (fillStep name) st).cols := by
  induction L generalizing st with
  | nil => cases hmem
  | cons c L' ih =>
    rw [List.foldl_cons]
    rcases List.mem_cons.1 hmem with hh | ht
    · subst hh
      have hgone : sfx name c0 ∉ (fillStep name st c0).cols := by
        rw [fillStep]
        by_cases hg : sfx name c0 ∈ st.cols
        · rw [if_pos hg]
          exact hnd.not_mem_erase
        · rw [if_neg hg]
          exact hg
      intro habs
      exact hgone (fillFold_cols_subset name L' (fillStep name st c0) habs)
    · exact ih (fillStep name st c) ht (fillStep_cols_nodup name st c hnd)

theorem column_names_nodup : COLUMN_NAMES.Nodup := by decide

theorem srcTailCols_sub (source : Frame) :
    ∀ c ∈ srcTailCols source, c ∈ COLUMN_NAMES := by
  intro c hcmem
  have := (List.mem_filter.1 hcmem).2
  simp only [Bool.and_eq_true, decide_eq_true_eq] at this
  exact this.1.2

theorem st0_cols_nodup (source : Frame) (name : String)
    (hs : source.cols = COLUMN_NAMES) (hn : name ∈ SOURCE_PRIORITY) :
    (COLUMN_NAMES ++ (srcTailCols source).map (sfx name)).Nodup := by
  refine List.nodup_append.2 ⟨column_names_nodup, ?_, ?_⟩
  · refine List.Nodup.map_on ?_ ?_
    · intro x _ y _ hxy
      exact sfx_injective hxy
    · rw [srcTailCols, hs]
      exact column_names_nodup.filter _
  · intro a haCN haMap
    obtain ⟨c0, _, hc0⟩ := List.mem_map.1 haMap
    exact canonical_ne_sfx haCN hn c0 hc0.symm

theorem fillFold_get (name col : String) (L : List String) (st : Frame) (i : Nat) (r : Row)
    (hr : st.rows[i]? = some r)
    (hna : (r col).isNa = false) (hns : r col ≠ .str "") :
    ∃ r', (L.foldl (fillStep name) st).rows[i]? = some r' ∧ r' col = r col := by
  induction L generalizing st r with
  | nil => exact ⟨r, hr, rfl⟩
  | cons c L' ih =>
    rw [List.foldl_cons]
    by_cases hg : sfx name c ∈ st.cols
    · have hst' : (fillStep name st c).rows[i]?
          = some (fun c' =>
              if c' = c then
                (if (r c).isNa || r c == .str "" then r (sfx name c) else r c)
              else r c') := by
        rw [fillStep, if_pos hg]
        simp only [List.getElem?_map, hr, Option.map_some']
      set r1 : Row := fun c' =>
        if c' = c then
          (if (r c).isNa || r c == .str "" then r (sfx name c) else r c)
        else r c' with hr1
      have hval : r1 col = r col := by
        rw [hr1]
        by_cases hcc : col = c
        · subst hcc
          have : ((r col).isNa || r col == Val.str "") = false := by
            rw [hna]
            simpa using hns
          simp [this]
        · simp [hcc]
      obtain ⟨r', hfold, hcol⟩ := ih (fillStep name st c) r1 hst'
        (by rw [hval]; exact hna) (by rw [hval]; exact hns)
      exact ⟨r', hfold, by rw [hcol, hval]⟩
    · have hst' : fillStep name st c = st := by
        rw [fillStep, if_neg hg]
      rw [hst']
      exact ih st r hr hna hns

theorem dsGate_false (source : Frame) (name : String) (rows0 : List Row)
    (hs : source.cols = COLUMN_NAMES) (hn : name ∈ SOURCE_PRIORITY) :
    sfx name "data_sources"
      ∉ ((srcTailCols source).foldl (fillStep name)
          { cols := COLUMN_NAMES ++ (srcTailCols source).map (sfx name),
            rows := rows0 : Frame }).cols := by
  by_cases hmem : "data_sources" ∈ srcTailCols source
  · exact fillFold_not_mem name _ _ _ hmem (st0_cols_nodup source name hs hn)
  · intro habs
    have h0 : sfx name "data_sources" ∈ COLUMN_NAMES ++ (srcTailCols source).map (sfx name) :=
      fillFold_cols_subset name _ _ habs
    rcases List.mem_append.1 h0 with hCN | hMap
    · exact canonical_ne_sfx hCN hn "data_sources" rfl
    · obtain ⟨c0, hc0mem, hc0⟩ := List.mem_map.1 hMap
      have hds : c0 = "data_sources" := sfx_injective hc0
      exact hmem (hds ▸ hc0mem)

/-- C1: the keyed merge is fill-only.  For canonical frames, a source name
from the priority list, and any canonical column whose base value is
non-absent (not missing and not the empty string the fill mask also
treats as blank), the merged record keeps the base record's value. -/
theorem smart_merge_fill_only (base source : Frame) (name col : String) (i : Nat) (br : Row)
    (hb : base.cols = COLUMN_NAMES) (hs : source.cols = COLUMN_NAMES)
    (hn : name ∈ SOURCE_PRIORITY) (hc : col ∈ COLUMN_NAMES)
    (hi : base.rows[i]? = some br)
    (hna : (br col).isNa = false) (hns : br col ≠ .str "") :
    ∃ mr, (smartMergeOnEin base source name).rows[i]? = some mr ∧ mr col = br col := by
  rw [smartMergeOnEin]
  by_cases htop : "ein" ∉ source.cols ∨ source.rows.all (fun r => (r "ein").isNa)
  · rw [if_pos htop]
    exact ⟨br, hi, rfl⟩
  · rw [if_neg htop]
    have hjoin : (base.rows.map (joinRow name (srcTailCols source) (dropDupEin source.rows [])))[i]?
        = some (joinRow name (srcTailCols source) (dropDupEin source.rows []) br) := by
      simp [List.getElem?_map, hi]
    have hjcol : joinRow name (srcTailCols source) (dropDupEin source.rows []) br col
        = br col := by
      have hfind : (srcTailCols source).find? (fun c0 => col == sfx name c0) = none := by
        apply List.find?_eq_none.2
        intro c0 _
        simp only [beq_iff_eq]
        exact canonical_ne_sfx hc hn c0
      rw [joinRow]
      simp only [hfind]
    obtain ⟨r', hfold, hcol⟩ := fillFold_get name col (srcTailCols source)
      { cols := base.cols ++ (srcTailCols source).map (sfx name),
        rows := base.rows.map (joinRow name (srcTailCols source) (dropDupEin source.rows [])) }
      i (joinRow name (srcTailCols source) (dropDupEin source.rows []) br)
      hjoin (by rw [hjcol]; exact hna) (by rw [hjcol]; exact hns)
    have hgate : sfx name "data_sources"
        ∉ ((srcTailCols source).foldl (fillStep name)
            { cols := base.cols ++ (srcTailCols source).map (sfx name),
              rows := base.rows.map
                (joinRow name (srcTailCols source) (dropDupEin source.rows [])) }).cols := by
      rw [hb]
      exact dsGate_false source name _ hs hn
    have hds : dsUnionStep name
        ((srcTailCols source).foldl (fillStep name)
          { cols := base.cols ++ (srcTailCols source).map (sfx name),
            rows := base.rows.map
              (joinRow name (srcTailCols source) (dropDupEin source.rows [])) })
        = (srcTailCols source).foldl (fillStep name)
          { cols := base.cols ++ (srcTailCols source).map (sfx name),
            rows := base.rows.map
              (joinRow name (srcTailCols source) (dropDupEin source.rows [])) } := by
      rw [dsUnionStep, if_neg hgate]
    refine ⟨r', ?_, by rw [hcol, hjcol]⟩
    show (dsUnionStep name _).rows[i]? = some r'
    rw [hds]
    exact hfold

/-- Witness for C1 at concrete frames: the base record's phone survives the
keyed merge with a source that carries a different phone for the same EIN. -/
theorem smart_merge_fill_only_witness :
    ∃ mr, (smartMergeOnEin w1Base w1Src "propublica").rows[0]? = some mr ∧
      mr "phone" = w1Row "phone" :=
  smart_merge_fill_only w1Base w1Src "propublica" "phone" 0 w1Row rfl rfl
    (by decide) (by decide) rfl (by decide) (by decide)

/-- Witness for C9 at a concrete cache and network: a pre-populated cache
answers with zero requests, and after a first 200 fetch the repeat request
issues zero requests. -/
theorem cached_get_avoids_network_witness :
    sessionGet true true [(cacheKey "GET" "https://api.example.org/orgs" "{}", c9Resp)]
        c9Net "https://api.example.org/orgs" "{}"
      = (c9Resp, [(cacheKey "GET" "https://api.example.org/orgs" "{}", c9Resp)], 0) ∧
    (sessionGet true true
        (sessionGet true true [] c9Net "https://api.example.org/orgs" "{}").2.1
        c9Net "https://api.example.org/orgs" "{}").2.2 = 0 :=
  ⟨(cached_get_avoids_network _ c9Net _ _).1 c9Resp rfl,
   ((cached_get_avoids_network [] c9Net "https://api.example.org/orgs" "{}").2.2 rfl rfl).1⟩
